import Mathlib

/-!
Verification of the coordinate-transform engine of the bevy-ofm-viewer repository.

The projection math of `src/main.rs` is embedded over the real numbers: `f64`/`f32`
arithmetic is modelled by `ℝ`, Rust float-to-integer `as` casts by explicit
truncate-and-saturate functions, `f64::round` by round-half-away-from-zero on `ℝ`,
two's-complement `i32` wrap-around by `wrap32`, and code that panics in a debug build
by `Option`.
-/

noncomputable section

namespace OfmViewer

open Real

/-- Rust `f64::round`: round half away from zero. -/
def rustRound (x : ℝ) : ℤ := if 0 ≤ x then ⌊x + 1 / 2⌋ else -⌊-x + 1 / 2⌋

/-- Rust float-to-integer truncation (toward zero), before saturation. -/
def rustTrunc (x : ℝ) : ℤ := if 0 ≤ x then ⌊x⌋ else -⌊-x⌋

/-- Rust `as i32` on a float: truncate toward zero, saturating at the `i32` bounds. -/
def i32cast (x : ℝ) : ℤ := max (-(2 ^ 31)) (min (2 ^ 31 - 1) (rustTrunc x))

/-- Rust `as u32` on a float: truncate toward zero, saturating at `0` and `u32::MAX`. -/
def u32cast (x : ℝ) : ℕ := (max 0 (min (2 ^ 32 - 1) (rustTrunc x))).toNat

/-- Two's-complement reinterpretation of an integer as a 32-bit signed value. -/
def wrap32 (v : ℤ) : ℤ := (v + 2 ^ 31) % 2 ^ 32 - 2 ^ 31

/-- Rust `f32::to_radians` / `f64::to_radians`. -/
def toRadians (x : ℝ) : ℝ := x * π / 180

/-- Rust `f64::to_degrees`. -/
def toDegrees (x : ℝ) : ℝ := x * 180 / π

/-- Modelled from the spec: `tile::Coord` (module `tile` is not shipped under `src/`),
a geographic coordinate `{ lat, long }` in degrees, built by `Coord::new(lat, long)`. -/
structure Coord where
  lat : ℝ
  long : ℝ

def Coord.new (lat long : ℝ) : Coord := ⟨lat, long⟩

/-- `pub const STARTING_LONG_LAT: Coord = Coord::new(52.18492, 0.14281721);` -/
def STARTING_LONG_LAT : Coord := Coord.new 52.18492 0.14281721

/-- `pub const STARTING_ZOOM: u32 = 14;` -/
def STARTING_ZOOM : ℕ := 14

/-- `pub const TILE_QUALITY: i32 = 512;` (used only as an `f64` scalar). -/
def TILE_QUALITY : ℝ := 512

/-- `const EARTH_RADIUS: f64 = 20037508.34;` from `lat_lon_to_world_mercator`. -/
def EARTH_RADIUS : ℝ := 20037508.34

/-- `fn lat_lon_to_world_mercator(lat: f32, lon: f32) -> (f64, f64)`:
forward Web Mercator, `x = lon_rad * R / π`, `y = ln(tan(π/4 + φ/2)) * R / π`. -/
def lat_lon_to_world_mercator (lat lon : ℝ) : ℝ × ℝ :=
  let lon_rad := toRadians lon
  let lat_rad := toRadians lat
  let x := lon_rad * EARTH_RADIUS / π
  let y := Real.log (Real.tan (π / 4 + lat_rad / 2)) * EARTH_RADIUS / π
  (x, y)

/-- `let meters_per_tile = 20037508.34 * 2.0 / (2.0_f64.powi(STARTING_ZOOM as i32));`
from `world_mercator_to_lat_lon`, hoisted to a constant. -/
def meters_per_tile : ℝ := 20037508.34 * 2 / 2 ^ STARTING_ZOOM

/-- `let scale = meters_per_tile / TILE_QUALITY as f64;` from `world_mercator_to_lat_lon`. -/
def scale : ℝ := meters_per_tile / TILE_QUALITY

/-- `pub fn world_mercator_to_lat_lon(x_offset: f64, y_offset: f64, reference: Coord) -> (f64, f64)`:
scaled offsets are rounded to whole Mercator meters, added to the reference origin, and sent
through the inverse Mercator formulas.  Returns `(lat, lon)`. -/
def world_mercator_to_lat_lon (x_offset y_offset : ℝ) (reference : Coord) : ℝ × ℝ :=
  let refM := lat_lon_to_world_mercator reference.lat reference.long
  let global_x := refM.1 + (rustRound (x_offset * scale) : ℝ)
  let global_y := refM.2 + (rustRound (y_offset * scale) : ℝ)
  let lon := global_x / 20037508.34 * 180
  let lat0 := toRadians (global_y / 20037508.34 * 180)
  let lat1 := 2 * Real.arctan (Real.exp lat0) - π / 2
  (toDegrees lat1, lon)

/-- `pub fn geo_to_tile(lon_deg: f64, lat_deg: f64, zoom: u32) -> (i32, i32)`:
`n = (1 << zoom) as f64` with the `i32` shift masked and wrapped, then truncating casts
of the slippy-map expressions. -/
def geo_to_tile (lon_deg lat_deg : ℝ) (zoom : ℕ) : ℤ × ℤ :=
  let n : ℝ := (wrap32 (2 ^ (zoom % 32)) : ℝ)
  let x_tile := i32cast (n * (lon_deg + 180) / 360)
  let lat_rad := toRadians lat_deg
  let y_tile := i32cast (n * (1 - Real.log (Real.tan lat_rad + 1 / Real.cos lat_rad) / π) / 2)
  (x_tile, y_tile)

/-- `pub fn tile_to_geo(xtile: i32, ytile: i32, zoom: u32) -> (f64, f64)`:
`n = 2.0f64.powi(zoom as i32)`, returns `(lon_deg, lat_deg)` of the tile's top-left corner. -/
def tile_to_geo (xtile ytile : ℤ) (zoom : ℕ) : ℝ × ℝ :=
  let n : ℝ := (2 : ℝ) ^ (wrap32 zoom)
  let lon_deg := (xtile : ℝ) / n * 360 - 180
  let lat_rad := Real.arctan (Real.sinh (π * (1 - 2 * (ytile : ℝ) / n)))
  (lon_deg, toDegrees lat_rad)

/-- `pub fn level_to_tile_width(level: i32) -> f32`, i.e. `360.0 / (2_i32.pow(level as u32) as f32)`:
`level as u32` is the two's-complement reinterpretation and the `i32::pow` overflow check of a
debug build (panic) is modelled as `none`. -/
def level_to_tile_width (level : ℤ) : Option ℝ :=
  let e := (level % 2 ^ 32).toNat
  if (2 : ℤ) ^ e ≤ 2 ^ 31 - 1 then some (360 / (2 : ℝ) ^ e) else none

/-- `pub fn world_degreese_to_world_mercator(lon: f32) -> u32`. -/
def world_degreese_to_world_mercator (lon : ℝ) : ℕ :=
  u32cast (lon * 20037508.34 / 180)

/-- The world-space rectangle computed inside `camera_space_to_lat_long_rect`
(lines 106-109): `left = cx`, `right = cx + w*s/2`, `bottom = cy + h*s/2`, `top = cy`. -/
structure WorldRect where
  left : ℝ
  right : ℝ
  bottom : ℝ
  top : ℝ

def camera_world_rect (cx cy w h s : ℝ) : WorldRect :=
  ⟨cx, cx + w * s / 2, cy + h * s / 2, cy⟩

/-- Modelled from the spec: `geo::Rect` (external crate) is an axis-aligned rectangle that
normalizes its two construction corners into a min and a max corner componentwise. -/
structure GeoRect where
  minC : ℝ × ℝ
  maxC : ℝ × ℝ

def GeoRect.new (c1 c2 : ℝ × ℝ) : GeoRect :=
  ⟨(min c1.1 c2.1, min c1.2 c2.2), (max c1.1 c2.1, max c1.2 c2.2)⟩

def GeoRect.center (r : GeoRect) : ℝ × ℝ :=
  ((r.minC.1 + r.maxC.1) / 2, (r.minC.2 + r.maxC.2) / 2)

/-- `pub fn camera_space_to_lat_long_rect(...) -> Option<geo::Rect<f64>>`: converts the two
diagonal corners `(left, bottom)` and `(right, top)` of the world rectangle through
`world_mercator_to_lat_lon` and always returns `Some`. -/
def camera_space_to_lat_long_rect (cx cy w h s : ℝ) : Option GeoRect :=
  let r := camera_world_rect cx cy w h s
  some (GeoRect.new
    (world_mercator_to_lat_lon r.left r.bottom STARTING_LONG_LAT)
    (world_mercator_to_lat_lon r.right r.top STARTING_LONG_LAT))

/-- Modelled from the spec: the per-frame caller (in `tile_map`, not shipped under `src/`)
has camera translation, window size and projection scale only when the scene is initialized;
when that state is unavailable it produces no rectangle for the frame, otherwise it calls
`camera_space_to_lat_long_rect`. -/
def viewport_system (st : Option (ℝ × ℝ × ℝ × ℝ × ℝ)) : Option GeoRect :=
  st.bind fun c => camera_space_to_lat_long_rect c.1 c.2.1 c.2.2.1 c.2.2.2.1 c.2.2.2.2

/-- The forward projection described by the spec as `geoToWorldMercator`: the Web Mercator
position of the coordinate (via the code helper `lat_lon_to_world_mercator`) relative to the
reference coordinate, divided by the fixed meters-per-pixel scale of reference zoom 14 and
tile size 512. -/
def geo_to_world_offset (lat lon : ℝ) (reference : Coord) : ℝ × ℝ :=
  let p := lat_lon_to_world_mercator lat lon
  let r := lat_lon_to_world_mercator reference.lat reference.long
  ((p.1 - r.1) / scale, (p.2 - r.2) / scale)

/-! ### Basic facts about the casts and constants -/

lemma scale_pos : 0 < scale := by
  norm_num [scale, meters_per_tile, TILE_QUALITY, STARTING_ZOOM]

lemma scale_ne_zero : scale ≠ 0 := ne_of_gt scale_pos

lemma rustTrunc_of_nonneg {x : ℝ} (h : 0 ≤ x) : rustTrunc x = ⌊x⌋ := if_pos h

lemma floor_eq_of {x : ℝ} {z : ℤ} (h1 : (z : ℝ) ≤ x) (h2 : x < z + 1) : ⌊x⌋ = z :=
  Int.floor_eq_iff.mpr ⟨h1, h2⟩

lemma rustRound_eq_of {x : ℝ} {z : ℤ} (h0 : 0 ≤ x) (h1 : (z : ℝ) ≤ x + 1 / 2)
    (h2 : x + 1 / 2 < z + 1) : rustRound x = z := by
  rw [rustRound, if_pos h0]
  exact floor_eq_of h1 h2

lemma rustRound_nonneg {x : ℝ} (h : 0 ≤ x) : 0 ≤ rustRound x := by
  rw [rustRound, if_pos h]
  have : (0 : ℝ) ≤ x + 1 / 2 := by linarith
  exact_mod_cast Int.floor_nonneg.mpr this

lemma abs_rustRound_sub_le (x : ℝ) : |(rustRound x : ℝ) - x| ≤ 1 / 2 := by
  rw [rustRound]
  rcases le_or_lt 0 x with h | h
  · rw [if_pos h]
    have h1 : (⌊x + 1 / 2⌋ : ℝ) ≤ x + 1 / 2 := Int.floor_le _
    have h2 : x + 1 / 2 - 1 < (⌊x + 1 / 2⌋ : ℝ) := Int.sub_one_lt_floor _
    rw [abs_le]
    constructor <;> linarith
  · rw [if_neg (not_le.mpr h)]
    have h1 : (⌊-x + 1 / 2⌋ : ℝ) ≤ -x + 1 / 2 := Int.floor_le _
    have h2 : -x + 1 / 2 - 1 < (⌊-x + 1 / 2⌋ : ℝ) := Int.sub_one_lt_floor _
    rw [abs_le]
    push_cast
    constructor <;> linarith

lemma i32cast_eq_floor {x : ℝ} (h0 : 0 ≤ x) (h1 : x < 2 ^ 31 - 1) : i32cast x = ⌊x⌋ := by
  rw [i32cast, rustTrunc_of_nonneg h0]
  have hfl : (0 : ℤ) ≤ ⌊x⌋ := Int.floor_nonneg.mpr h0
  have hfu : ⌊x⌋ ≤ 2 ^ 31 - 1 := by
    have := Int.floor_le x
    have : (⌊x⌋ : ℝ) < 2 ^ 31 - 1 := lt_of_le_of_lt this h1
    exact_mod_cast this.le
  rw [min_eq_right hfu, max_eq_right (by linarith)]

lemma rustTrunc_intCast (z : ℤ) : rustTrunc (z : ℝ) = z := by
  rcases le_or_lt 0 z with h | h
  · rw [rustTrunc_of_nonneg (by exact_mod_cast h), Int.floor_intCast]
  · have : ¬(0 : ℝ) ≤ (z : ℝ) := by exact_mod_cast not_le.mpr h
    rw [rustTrunc, if_neg this]
    rw [show (-(z : ℝ)) = ((-z : ℤ) : ℝ) by push_cast; ring, Int.floor_intCast]
    ring

/-- The longitude component of `world_mercator_to_lat_lon` in closed form. -/
lemma world_mercator_lon_eq (x_offset y_offset : ℝ) (reference : Coord) :
    (world_mercator_to_lat_lon x_offset y_offset reference).2 =
      reference.long + (rustRound (x_offset * scale) : ℝ) * 180 / 20037508.34 := by
  have hπ : (π : ℝ) ≠ 0 := Real.pi_ne_zero
  simp only [world_mercator_to_lat_lon, lat_lon_to_world_mercator, toRadians, EARTH_RADIUS]
  field_simp
  ring

/-- The latitude component of `world_mercator_to_lat_lon` in closed form. -/
lemma world_mercator_lat_eq (x_offset y_offset : ℝ) (reference : Coord) :
    (world_mercator_to_lat_lon x_offset y_offset reference).1 =
      toDegrees (2 * Real.arctan (Real.exp
        (((lat_lon_to_world_mercator reference.lat reference.long).2 +
          (rustRound (y_offset * scale) : ℝ)) * π / 20037508.34)) - π / 2) := by
  simp only [world_mercator_to_lat_lon, toRadians, toDegrees]
  ring_nf

/-! ### Claim C2: the computed world rectangle versus the physical viewport -/

/-- C2: with the camera at the origin, an 800×600 window and projection scale 1, the
world rectangle of `camera_space_to_lat_long_rect` is anchored at the camera on its left and
top edges, but its area is exactly one quarter of the physical viewport area
`(w*s)*(h*s)` — strictly smaller, not strictly larger as claimed (and as the code's own
comment intends). -/
theorem C2_world_rect_quarter_viewport :
    (camera_world_rect 0 0 800 600 1).left = 0 ∧
    (camera_world_rect 0 0 800 600 1).top = 0 ∧
    ((camera_world_rect 0 0 800 600 1).right - (camera_world_rect 0 0 800 600 1).left) *
        ((camera_world_rect 0 0 800 600 1).bottom - (camera_world_rect 0 0 800 600 1).top) =
      800 * 1 * (600 * 1) / 4 ∧
    ((camera_world_rect 0 0 800 600 1).right - (camera_world_rect 0 0 800 600 1).left) *
        ((camera_world_rect 0 0 800 600 1).bottom - (camera_world_rect 0 0 800 600 1).top) <
      800 * 1 * (600 * 1) := by
  norm_num [camera_world_rect]

/-! ### Claim C5: availability of the viewport rectangle -/

/-- C5: `camera_space_to_lat_long_rect` always returns `Some` once camera and window state
exist, and the per-frame viewport computation yields no rectangle exactly when that state is
unavailable. -/
theorem C5_none_iff_state_unavailable :
    (∀ cx cy w h s : ℝ, (camera_space_to_lat_long_rect cx cy w h s).isSome) ∧
    (∀ st : Option (ℝ × ℝ × ℝ × ℝ × ℝ), viewport_system st = none ↔ st = none) := by
  constructor
  · intro cx cy w h s
    simp [camera_space_to_lat_long_rect]
  · intro st
    cases st <;> simp [viewport_system, camera_space_to_lat_long_rect]

/-! ### Claim C6: rounding of scaled offsets decides the result -/

/-- C6: `world_mercator_to_lat_lon` rounds each scaled world offset to the nearest whole
Mercator unit before adding it to the reference origin, so offsets whose scaled products
round identically produce identical results. -/
theorem C6_round_decides_result (reference : Coord) (x1 x2 y1 y2 : ℝ)
    (hx : rustRound (x1 * scale) = rustRound (x2 * scale))
    (hy : rustRound (y1 * scale) = rustRound (y2 * scale)) :
    world_mercator_to_lat_lon x1 y1 reference = world_mercator_to_lat_lon x2 y2 reference := by
  simp only [world_mercator_to_lat_lon, hx, hy]

/-- Witness for C6 at the concrete offsets `x1 = 0`, `x2 = 0.0001` (both scaled products
round to `0`) with `y1 = y2 = 0`. -/
theorem C6_round_decides_result_witness :
    rustRound (0 * scale) = rustRound (0.0001 * scale) ∧
    world_mercator_to_lat_lon 0 0 STARTING_LONG_LAT =
      world_mercator_to_lat_lon 0.0001 0 STARTING_LONG_LAT := by
  have h : rustRound (0 * scale) = rustRound (0.0001 * scale) := by
    rw [rustRound_eq_of (z := 0) (by norm_num)
        (by norm_num) (by norm_num),
      rustRound_eq_of (z := 0)
        (by norm_num [scale, meters_per_tile, TILE_QUALITY, STARTING_ZOOM])
        (by norm_num [scale, meters_per_tile, TILE_QUALITY, STARTING_ZOOM])
        (by norm_num [scale, meters_per_tile, TILE_QUALITY, STARTING_ZOOM])]
  exact ⟨h, C6_round_decides_result STARTING_LONG_LAT 0 0.0001 0 0 h rfl⟩

/-! ### Claim C9: the saturating `as u32` cast -/

/-- C9: `world_degreese_to_world_mercator` is total because the Rust float-to-`u32` cast
saturates: every negative longitude yields `0`, and every longitude whose scaled value
exceeds `u32::MAX` yields `u32::MAX`. -/
theorem C9_saturating_cast :
    (∀ lon : ℝ, lon < 0 → world_degreese_to_world_mercator lon = 0) ∧
    (∀ lon : ℝ, (4294967295 : ℝ) < lon * 20037508.34 / 180 →
      world_degreese_to_world_mercator lon = 4294967295) := by
  constructor
  · intro lon hlon
    have hv : lon * 20037508.34 / 180 < 0 := by nlinarith
    rw [world_degreese_to_world_mercator, u32cast, rustTrunc, if_neg (not_le.mpr hv)]
    have h1 : (0 : ℤ) ≤ ⌊-(lon * 20037508.34 / 180)⌋ := Int.floor_nonneg.mpr (by linarith)
    rw [min_eq_right (by omega), max_eq_left (by omega)]
    rfl
  · intro lon hlon
    have hv : (0 : ℝ) ≤ lon * 20037508.34 / 180 := by linarith
    rw [world_degreese_to_world_mercator, u32cast, rustTrunc_of_nonneg hv]
    have h1 : (4294967295 : ℤ) ≤ ⌊lon * 20037508.34 / 180⌋ := by
      apply Int.le_floor.mpr
      push_cast
      linarith
    have h2 : (2 : ℤ) ^ 32 - 1 = 4294967295 := by norm_num
    rw [h2, min_eq_left h1, max_eq_right (by omega)]
    rfl

/-- Witness for C9 at `lon = -1` (negative) and `lon = 1000000000` (scaled value beyond
`u32::MAX`). -/
theorem C9_saturating_cast_witness :
    ((-1 : ℝ) < 0 ∧ world_degreese_to_world_mercator (-1) = 0) ∧
    ((4294967295 : ℝ) < 1000000000 * 20037508.34 / 180 ∧
      world_degreese_to_world_mercator 1000000000 = 4294967295) :=
  ⟨⟨by norm_num, C9_saturating_cast.1 (-1) (by norm_num)⟩,
    ⟨by norm_num, C9_saturating_cast.2 1000000000 (by norm_num)⟩⟩

/-! ### Claim C10: `level_to_tile_width` -/

/-- C10: for `0 ≤ level ≤ 30` the function returns exactly `360 / 2^level`; for any other
`i32` input (negative, or at least 31) the internal `2_i32.pow(level as u32)` overflows and
the function panics in a debug build (modelled as `none`). -/
theorem C10_level_width :
    (∀ level : ℤ, 0 ≤ level → level ≤ 30 →
      level_to_tile_width level = some (360 / (2 : ℝ) ^ level.toNat)) ∧
    (∀ level : ℤ, -(2 ^ 31) ≤ level → level < 2 ^ 31 → (level < 0 ∨ 31 ≤ level) →
      level_to_tile_width level = none) := by
  constructor
  · intro level h0 h30
    have hmod : level % 2 ^ 32 = level := by omega
    have he : (level % 2 ^ 32).toNat = level.toNat := by rw [hmod]
    have hle : (level % 2 ^ 32).toNat ≤ 30 := by omega
    rw [level_to_tile_width, if_pos, he]
    calc (2 : ℤ) ^ (level % 2 ^ 32).toNat ≤ 2 ^ 30 :=
          pow_le_pow_right₀ (by norm_num) hle
      _ ≤ 2 ^ 31 - 1 := by norm_num
  · intro level hlo hhi hbad
    have he : 31 ≤ (level % 2 ^ 32).toNat := by omega
    rw [level_to_tile_width, if_neg]
    push_neg
    have h2 : (2 : ℤ) ^ 31 ≤ 2 ^ (level % 2 ^ 32).toNat := pow_le_pow_right₀ (by norm_num) he
    linarith

/-- Witness for C10 at `level = 5` (in range), `level = -1` and `level = 31` (overflow). -/
theorem C10_level_width_witness :
    level_to_tile_width 5 = some (360 / (2 : ℝ) ^ (5 : ℤ).toNat) ∧
    level_to_tile_width (-1) = none ∧ level_to_tile_width 31 = none :=
  ⟨C10_level_width.1 5 (by norm_num) (by norm_num),
    C10_level_width.2 (-1) (by norm_num) (by norm_num) (Or.inl (by norm_num)),
    C10_level_width.2 31 (by norm_num) (by norm_num) (Or.inr (by norm_num))⟩

/-! ### Exact inverse of the forward Mercator latitude formula -/

lemma two_arctan_exp_log_tan {φ : ℝ} (h1 : -(π / 2) < φ) (h2 : φ < π / 2) :
    2 * Real.arctan (Real.exp (Real.log (Real.tan (π / 4 + φ / 2)))) - π / 2 = φ := by
  have hpi := Real.pi_pos
  have hpos : 0 < Real.tan (π / 4 + φ / 2) :=
    Real.tan_pos_of_pos_of_lt_pi_div_two (by linarith) (by linarith)
  rw [Real.exp_log hpos, Real.arctan_tan (by linarith) (by linarith)]
  ring

/-- Feeding the exact forward Mercator `y` of a valid latitude through the code's inverse
formula returns that latitude. -/
lemma merc_lat_roundtrip (lon : ℝ) {lat : ℝ} (h1 : -90 < lat) (h2 : lat < 90) :
    toDegrees (2 * Real.arctan (Real.exp
      ((lat_lon_to_world_mercator lat lon).2 * π / 20037508.34)) - π / 2) = lat := by
  have hπ : (π : ℝ) ≠ 0 := Real.pi_ne_zero
  have hpi := Real.pi_pos
  have hφ1 : -(π / 2) < toRadians lat := by
    rw [toRadians]
    nlinarith
  have hφ2 : toRadians lat < π / 2 := by
    rw [toRadians]
    nlinarith
  have harg : (lat_lon_to_world_mercator lat lon).2 * π / 20037508.34 =
      Real.log (Real.tan (π / 4 + toRadians lat / 2)) := by
    simp only [lat_lon_to_world_mercator, EARTH_RADIUS]
    field_simp
  rw [harg, two_arctan_exp_log_tan hφ1 hφ2, toDegrees, toRadians]
  field_simp

/-- The inverse Mercator latitude formula is monotone in the rounded offset. -/
lemma merc_lat_mono (refY : ℝ) {c1 c2 : ℝ} (h : c1 ≤ c2) :
    toDegrees (2 * Real.arctan (Real.exp ((refY + c1) * π / 20037508.34)) - π / 2) ≤
      toDegrees (2 * Real.arctan (Real.exp ((refY + c2) * π / 20037508.34)) - π / 2) := by
  have hpi := Real.pi_pos
  have harg : (refY + c1) * π / 20037508.34 ≤ (refY + c2) * π / 20037508.34 := by
    gcongr
  have h1 := Real.arctan_strictMono.monotone (Real.exp_le_exp.mpr harg)
  rw [toDegrees, toDegrees]
  gcongr

/-! ### Claim C1: Mercator round trip -/

lemma geo_to_world_offset_x_scale (lat lon : ℝ) :
    (geo_to_world_offset lat lon STARTING_LONG_LAT).1 * scale =
      (lon - 0.14281721) * 20037508.34 / 180 := by
  have hπ : (π : ℝ) ≠ 0 := Real.pi_ne_zero
  simp only [geo_to_world_offset, lat_lon_to_world_mercator, toRadians, EARTH_RADIUS,
    STARTING_LONG_LAT, Coord.new]
  rw [div_mul_cancel₀ _ scale_ne_zero]
  field_simp
  ring

/-- C1 fails as stated: at the concrete coordinate with longitude
`0.14281721 + 90/20037508.34` (half a Mercator meter east of the reference) and latitude
`52.18492`, the rounding of scaled offsets to whole Mercator meters moves the longitude by
`90/20037508.34 ≈ 4.49e-6` degrees, which exceeds the claimed `1e-6` tolerance. -/
theorem C1_roundtrip_counterexample :
    ¬(|(world_mercator_to_lat_lon
          (geo_to_world_offset 52.18492 (0.14281721 + 90 / 20037508.34) STARTING_LONG_LAT).1
          (geo_to_world_offset 52.18492 (0.14281721 + 90 / 20037508.34) STARTING_LONG_LAT).2
          STARTING_LONG_LAT).1 - 52.18492| ≤ 1e-6 ∧
      |(world_mercator_to_lat_lon
          (geo_to_world_offset 52.18492 (0.14281721 + 90 / 20037508.34) STARTING_LONG_LAT).1
          (geo_to_world_offset 52.18492 (0.14281721 + 90 / 20037508.34) STARTING_LONG_LAT).2
          STARTING_LONG_LAT).2 - (0.14281721 + 90 / 20037508.34)| ≤ 1e-6) := by
  rintro ⟨-, h⟩
  rw [world_mercator_lon_eq, geo_to_world_offset_x_scale] at h
  have hround : rustRound ((0.14281721 + 90 / 20037508.34 - 0.14281721) * 20037508.34 / 180) =
      1 := by
    apply rustRound_eq_of (z := 1) <;> norm_num
  rw [hround] at h
  simp only [STARTING_LONG_LAT, Coord.new] at h
  rw [abs_le] at h
  have h2 := h.2
  norm_num at h2

/-! ### Claim C8: the scenario with the camera at the world origin -/

lemma rustRound_zero_scale : rustRound (0 * scale) = 0 := by
  apply rustRound_eq_of (z := 0) <;> norm_num

lemma rustRound_right_offset : rustRound ((0 + 800 * 1 / 2) * scale) = 1911 := by
  apply rustRound_eq_of (z := 1911) <;>
    norm_num [scale, meters_per_tile, TILE_QUALITY, STARTING_ZOOM]

/-- C8 fails as stated: with the camera at the origin, window 800×600 and scale 1, the
geographic rectangle's center does not equal the reference coordinate converted at world
offset (0,0) — the rectangle is anchored at the camera corner, not centered on it, so the
center longitude is shifted east by 1911·90/20037508.34 ≈ 0.0086 degrees. -/
theorem C8_center_counterexample :
    (camera_space_to_lat_long_rect 0 0 800 600 1).map GeoRect.center ≠
      some (world_mercator_to_lat_lon 0 0 STARTING_LONG_LAT) := by
  intro h
  rw [camera_space_to_lat_long_rect] at h
  simp only [camera_world_rect, Option.map_some'] at h
  rw [Option.some_inj] at h
  have h2 := congrArg Prod.snd h
  simp only [GeoRect.new, GeoRect.center] at h2
  rw [min_add_max, world_mercator_lon_eq, world_mercator_lon_eq, world_mercator_lon_eq,
    rustRound_zero_scale, rustRound_right_offset] at h2
  simp only [STARTING_LONG_LAT, Coord.new] at h2
  norm_num at h2

/-- C8 amended: with the camera at the origin, window 800×600 and scale 1, the geographic
rectangle's minimum corner (not its center) equals the reference coordinate converted at
world offset (0,0), which is exactly (52.18492, 0.14281721). -/
theorem C8_min_corner_amended :
    (camera_space_to_lat_long_rect 0 0 800 600 1).map GeoRect.minC =
      some (52.18492, 0.14281721) ∧
    world_mercator_to_lat_lon 0 0 STARTING_LONG_LAT = (52.18492, 0.14281721) := by
  have h400 : (0 : ℝ) ≤ (rustRound ((0 + 800 * 1 / 2) * scale) : ℝ) := by
    exact_mod_cast rustRound_nonneg (mul_nonneg (by norm_num) scale_pos.le)
  have h300 : rustRound (0 * scale) ≤ rustRound ((0 + 600 * 1 / 2) * scale) := by
    rw [rustRound_zero_scale]
    exact rustRound_nonneg (mul_nonneg (by norm_num) scale_pos.le)
  have hlatmin : (world_mercator_to_lat_lon (0 + 800 * 1 / 2) 0 STARTING_LONG_LAT).1 ≤
      (world_mercator_to_lat_lon 0 (0 + 600 * 1 / 2) STARTING_LONG_LAT).1 := by
    rw [world_mercator_lat_eq, world_mercator_lat_eq]
    apply merc_lat_mono
    exact_mod_cast h300
  have hlat0 : ∀ x : ℝ, (world_mercator_to_lat_lon x 0 STARTING_LONG_LAT).1 = 52.18492 := by
    intro x
    rw [world_mercator_lat_eq, rustRound_zero_scale]
    push_cast
    rw [add_zero]
    simp only [STARTING_LONG_LAT, Coord.new]
    exact merc_lat_roundtrip 0.14281721 (by norm_num) (by norm_num)
  have hlon0 : ∀ y : ℝ, (world_mercator_to_lat_lon 0 y STARTING_LONG_LAT).2 = 0.14281721 := by
    intro y
    rw [world_mercator_lon_eq, rustRound_zero_scale]
    simp only [STARTING_LONG_LAT, Coord.new]
    norm_num
  have hlonmax : (world_mercator_to_lat_lon 0 (0 + 600 * 1 / 2) STARTING_LONG_LAT).2 ≤
      (world_mercator_to_lat_lon (0 + 800 * 1 / 2) 0 STARTING_LONG_LAT).2 := by
    rw [hlon0, world_mercator_lon_eq]
    simp only [STARTING_LONG_LAT, Coord.new]
    have hc : (0 : ℝ) ≤ (rustRound ((0 + 800 * 1 / 2) * scale) : ℝ) * 180 / 20037508.34 :=
      div_nonneg (mul_nonneg h400 (by norm_num)) (by norm_num)
    linarith
  constructor
  · rw [camera_space_to_lat_long_rect]
    simp only [camera_world_rect, Option.map_some']
    rw [Option.some_inj]
    simp only [GeoRect.new, GeoRect.minC]
    rw [min_eq_right hlatmin, min_eq_left hlonmax, hlat0, hlon0]
  · exact Prod.ext_iff.mpr ⟨hlat0 0, hlon0 0⟩

/-! ### Claims C3 and C7: counterexamples at the domain edges -/

/-- C3 fails as stated: at longitude 180 (a valid longitude per the claim), latitude 0 and
zoom 0, `geo_to_tile` returns `x = 1`, violating `x < 2^0 = 1`. -/
theorem C3_tile_range_counterexample :
    ¬(0 ≤ (geo_to_tile 180 0 0).1 ∧ (geo_to_tile 180 0 0).1 < 2 ^ (0 : ℕ) ∧
      0 ≤ (geo_to_tile 180 0 0).2 ∧ (geo_to_tile 180 0 0).2 < 2 ^ (0 : ℕ)) := by
  have hx : (geo_to_tile 180 0 0).1 = 1 := by
    simp only [geo_to_tile]
    have hn : wrap32 (2 ^ (0 % 32)) = 1 := by norm_num [wrap32]
    rw [hn]
    have harg : ((1 : ℤ) : ℝ) * (180 + 180) / 360 = 1 := by norm_num
    rw [harg, i32cast_eq_floor (by norm_num) (by norm_num), Int.floor_one]
  rintro ⟨-, h, -, -⟩
  rw [hx] at h
  norm_num at h

/-- C7 fails as stated for "every zoom level": at zoom 31 the shift `1 << zoom` overflows
`i32` to `-2^31`, so `geo_to_tile 180 0 31` returns `x = -2^31` instead of the claimed
`floor(2^31 * (180+180)/360) = 2^31`. -/
theorem C7_formula_counterexample :
    (geo_to_tile 180 0 31).1 ≠ ⌊(2 : ℝ) ^ (31 : ℕ) * ((180 : ℝ) + 180) / 360⌋ := by
  have hx : (geo_to_tile 180 0 31).1 = -(2 ^ 31) := by
    simp only [geo_to_tile]
    have hn : wrap32 (2 ^ (31 % 32)) = -(2 ^ 31) := by norm_num [wrap32]
    rw [hn]
    have harg : ((-(2 ^ 31) : ℤ) : ℝ) * (180 + 180) / 360 = ((-(2 ^ 31) : ℤ) : ℝ) := by
      push_cast
      ring
    rw [harg, i32cast, rustTrunc_intCast]
    norm_num
  have hy : ⌊(2 : ℝ) ^ (31 : ℕ) * ((180 : ℝ) + 180) / 360⌋ = 2 ^ 31 := by
    rw [show (2 : ℝ) ^ (31 : ℕ) * ((180 : ℝ) + 180) / 360 = ((2 ^ 31 : ℤ) : ℝ) by
      push_cast; ring]
    exact Int.floor_intCast _
  rw [hx, hy]
  norm_num

/-! ### The inverse Mercator latitude map is 1-Lipschitz -/

lemma hasDerivAt_merc_inv (u : ℝ) :
    HasDerivAt (fun v : ℝ => 2 * Real.arctan (Real.exp v) - π / 2)
      (2 * (1 / (1 + Real.exp u ^ 2) * Real.exp u)) u := by
  have h1 : HasDerivAt Real.exp (Real.exp u) u := Real.hasDerivAt_exp u
  have h2 : HasDerivAt Real.arctan (1 / (1 + Real.exp u ^ 2)) (Real.exp u) :=
    Real.hasDerivAt_arctan (Real.exp u)
  have h3 : HasDerivAt (fun v : ℝ => Real.arctan (Real.exp v))
      (1 / (1 + Real.exp u ^ 2) * Real.exp u) u := h2.comp u h1
  exact (h3.const_mul 2).sub_const (π / 2)

lemma merc_inv_lipschitz :
    LipschitzWith 1 (fun u : ℝ => 2 * Real.arctan (Real.exp u) - π / 2) := by
  apply lipschitzWith_of_nnnorm_deriv_le
  · exact fun u => (hasDerivAt_merc_inv u).differentiableAt
  · intro u
    have hd := (hasDerivAt_merc_inv u).deriv
    have he := Real.exp_pos u
    have h1e : (0 : ℝ) < 1 + Real.exp u ^ 2 := by positivity
    have hbound : |2 * (1 / (1 + Real.exp u ^ 2) * Real.exp u)| ≤ 1 := by
      rw [show 2 * (1 / (1 + Real.exp u ^ 2) * Real.exp u) =
        2 * Real.exp u / (1 + Real.exp u ^ 2) by ring]
      rw [abs_of_nonneg (by positivity), div_le_one h1e]
      nlinarith [sq_nonneg (Real.exp u - 1)]
    have : ‖deriv (fun v : ℝ => 2 * Real.arctan (Real.exp v) - π / 2) u‖ ≤ (1 : ℝ) := by
      rw [hd, Real.norm_eq_abs]
      exact hbound
    exact_mod_cast this

lemma merc_inv_abs_sub (a b : ℝ) :
    |(2 * Real.arctan (Real.exp a) - π / 2) - (2 * Real.arctan (Real.exp b) - π / 2)| ≤
      |a - b| := by
  have := merc_inv_lipschitz.dist_le_mul a b
  simpa [Real.dist_eq] using this

/-! ### Claim C1 amended: round trip within half a Mercator meter (4.5e-6 degrees) -/

lemma geo_to_world_offset_y_scale (lat lon : ℝ) :
    (geo_to_world_offset lat lon STARTING_LONG_LAT).2 * scale =
      (lat_lon_to_world_mercator lat lon).2 -
        (lat_lon_to_world_mercator STARTING_LONG_LAT.lat STARTING_LONG_LAT.long).2 := by
  simp only [geo_to_world_offset]
  rw [div_mul_cancel₀ _ scale_ne_zero]

/-- C1 amended: the Mercator round trip through `world_mercator_to_lat_lon` reproduces every
valid coordinate within 4.5e-6 degrees (not 1e-6): the offsets are scaled to Mercator meters
and rounded to whole meters, and half a meter is 90/20037508.34 ≈ 4.4916e-6 degrees. -/
theorem C1_roundtrip_amended (lat lon : ℝ) (h1 : -90 < lat) (h2 : lat < 90) :
    |(world_mercator_to_lat_lon
        (geo_to_world_offset lat lon STARTING_LONG_LAT).1
        (geo_to_world_offset lat lon STARTING_LONG_LAT).2 STARTING_LONG_LAT).1 - lat| ≤
      4.5e-6 ∧
    |(world_mercator_to_lat_lon
        (geo_to_world_offset lat lon STARTING_LONG_LAT).1
        (geo_to_world_offset lat lon STARTING_LONG_LAT).2 STARTING_LONG_LAT).2 - lon| ≤
      4.5e-6 := by
  have hpi := Real.pi_pos
  have hπ : (π : ℝ) ≠ 0 := Real.pi_ne_zero
  constructor
  · -- latitude component
    rw [world_mercator_lat_eq]
    have hy := geo_to_world_offset_y_scale lat lon
    have habs := abs_rustRound_sub_le ((geo_to_world_offset lat lon STARTING_LONG_LAT).2 * scale)
    set r : ℤ := rustRound ((geo_to_world_offset lat lon STARTING_LONG_LAT).2 * scale) with hr
    set M : ℝ := (lat_lon_to_world_mercator lat lon).2 with hM
    set Y : ℝ := (lat_lon_to_world_mercator STARTING_LONG_LAT.lat STARTING_LONG_LAT.long).2
      with hY
    rw [hy] at habs
    have hlat_eq : toDegrees (2 * Real.arctan (Real.exp (M * π / 20037508.34)) - π / 2) = lat :=
      merc_lat_roundtrip lon h1 h2
    rw [← hlat_eq]
    have hdeg : toDegrees (2 * Real.arctan (Real.exp ((Y + (r : ℝ)) * π / 20037508.34)) - π / 2)
        - toDegrees (2 * Real.arctan (Real.exp (M * π / 20037508.34)) - π / 2)
        = ((2 * Real.arctan (Real.exp ((Y + (r : ℝ)) * π / 20037508.34)) - π / 2)
          - (2 * Real.arctan (Real.exp (M * π / 20037508.34)) - π / 2)) * (180 / π) := by
      rw [toDegrees, toDegrees]
      ring
    rw [hdeg, abs_mul, abs_of_nonneg (by positivity : (0 : ℝ) ≤ 180 / π)]
    have hlip := merc_inv_abs_sub ((Y + (r : ℝ)) * π / 20037508.34) (M * π / 20037508.34)
    have hargdiff : (Y + (r : ℝ)) * π / 20037508.34 - M * π / 20037508.34
        = ((r : ℝ) - (M - Y)) * (π / 20037508.34) := by ring
    rw [hargdiff, abs_mul, abs_of_nonneg (by positivity : (0 : ℝ) ≤ π / 20037508.34)] at hlip
    calc |(2 * Real.arctan (Real.exp ((Y + (r : ℝ)) * π / 20037508.34)) - π / 2)
          - (2 * Real.arctan (Real.exp (M * π / 20037508.34)) - π / 2)| * (180 / π)
        ≤ |(r : ℝ) - (M - Y)| * (π / 20037508.34) * (180 / π) := by gcongr
      _ ≤ (1 / 2) * (π / 20037508.34) * (180 / π) := by gcongr
      _ = (1 / 2) * (180 / 20037508.34) := by field_simp; ring
      _ ≤ 4.5e-6 := by norm_num
  · -- longitude component
    rw [world_mercator_lon_eq, geo_to_world_offset_x_scale]
    simp only [STARTING_LONG_LAT, Coord.new]
    set Δ : ℝ := (lon - 0.14281721) * 20037508.34 / 180 with hΔ
    have key : 0.14281721 + (rustRound Δ : ℝ) * 180 / 20037508.34 - lon
        = ((rustRound Δ : ℝ) - Δ) * (180 / 20037508.34) := by
      rw [hΔ]
      ring
    rw [key, abs_mul, abs_of_nonneg (by norm_num : (0 : ℝ) ≤ 180 / 20037508.34)]
    calc |(rustRound Δ : ℝ) - Δ| * (180 / 20037508.34)
        ≤ (1 / 2) * (180 / 20037508.34) := by gcongr; exact abs_rustRound_sub_le Δ
      _ ≤ 4.5e-6 := by norm_num

/-- Witness for the amended C1 at the concrete coordinate `(lat, lon) = (0, 0)`. -/
theorem C1_roundtrip_amended_witness :
    ((-90 : ℝ) < 0 ∧ (0 : ℝ) < 90) ∧
    (|(world_mercator_to_lat_lon
        (geo_to_world_offset 0 0 STARTING_LONG_LAT).1
        (geo_to_world_offset 0 0 STARTING_LONG_LAT).2 STARTING_LONG_LAT).1 - 0| ≤ 4.5e-6 ∧
      |(world_mercator_to_lat_lon
        (geo_to_world_offset 0 0 STARTING_LONG_LAT).1
        (geo_to_world_offset 0 0 STARTING_LONG_LAT).2 STARTING_LONG_LAT).2 - 0| ≤ 4.5e-6) :=
  ⟨⟨by norm_num, by norm_num⟩, C1_roundtrip_amended 0 0 (by norm_num) (by norm_num)⟩

/-! ### Numeric bounds: the latitude 85.05 stays strictly inside the Mercator limit -/

lemma exp_d6_gt : (23.1399 : ℝ) < Real.exp 3.141592 := by
  have hsplit : Real.exp 3.141592 = Real.exp 3 * Real.exp 0.141592 := by
    rw [← Real.exp_add]
    norm_num
  have he1 : (2.7182818283 : ℝ) < Real.exp 1 := Real.exp_one_gt_d9
  have he3 : (2.7182818283 : ℝ) ^ 3 < Real.exp 3 := by
    have h := pow_lt_pow_left₀ he1 (by norm_num) (three_ne_zero)
    rwa [Real.exp_one_pow, Nat.cast_ofNat] at h
  have hb := Real.exp_bound (x := (0.141592 : ℝ))
    (by rw [abs_le]; constructor <;> norm_num) (n := 4) (by norm_num)
  have hsum : ∑ m ∈ Finset.range 4, (0.141592 : ℝ) ^ m / m.factorial
      = 1 + 0.141592 + 0.141592 ^ 2 / 2 + 0.141592 ^ 3 / 6 := by
    rw [Finset.sum_range_succ, Finset.sum_range_succ, Finset.sum_range_succ,
      Finset.sum_range_succ, Finset.sum_range_zero]
    norm_num [Nat.factorial]
  rw [hsum, abs_of_pos (by norm_num : (0 : ℝ) < 0.141592), abs_le] at hb
  have h4 : (1.1520682 : ℝ) ≤ Real.exp 0.141592 := by
    have h := hb.1
    have hc : (0.141592 : ℝ) ^ 4 * ((4 : ℕ).succ / ((4 : ℕ).factorial * (4 : ℕ))) ≤
        0.000021 := by
      norm_num [Nat.factorial]
    nlinarith
  calc (23.1399 : ℝ) < 2.7182818283 ^ 3 * 1.1520682 := by norm_num
    _ ≤ Real.exp 3 * Real.exp 0.141592 :=
        mul_le_mul he3.le h4 (by norm_num) (Real.exp_pos 3).le
    _ = Real.exp 3.141592 := hsplit.symm

lemma exp_neg_d6_lt : Real.exp (-3.141592) < 0.043216 := by
  rw [Real.exp_neg]
  have h1 : (0.043216 : ℝ)⁻¹ < Real.exp 3.141592 := lt_trans (by norm_num) exp_d6_gt
  have h2 := inv_strictAnti₀ (by norm_num : (0 : ℝ) < 0.043216⁻¹) h1
  rwa [inv_inv] at h2

lemma sinh_pi_gt : (11.5483 : ℝ) < Real.sinh π := by
  have h1 : Real.sinh 3.141592 < Real.sinh π := Real.sinh_lt_sinh.mpr Real.pi_gt_d6
  have h2 : (11.5483 : ℝ) < Real.sinh 3.141592 := by
    rw [Real.sinh_eq]
    have ha := exp_d6_gt
    have hb := exp_neg_d6_lt
    linarith
  linarith

lemma tan_theta_gt : (0.086604 : ℝ) < Real.tan (4.95 * π / 180) := by
  have hpi6 := Real.pi_gt_d6
  have hpi6u := Real.pi_lt_d6
  have hpi := Real.pi_pos
  have hθlo : (0.08639378 : ℝ) ≤ 4.95 * π / 180 := by linarith
  have hθhi : 4.95 * π / 180 ≤ 0.0863940 := by linarith
  have hθlt : 4.95 * π / 180 < π / 2 := by linarith
  have hsb := Real.sin_bound (x := (0.08639378 : ℝ)) (by rw [abs_le]; constructor <;> norm_num)
  rw [abs_of_pos (by norm_num : (0 : ℝ) < 0.08639378), abs_le] at hsb
  have hsin1 : (0.0862834 : ℝ) ≤ Real.sin 0.08639378 := by
    have h := hsb.1
    nlinarith
  have hsin : (0.0862834 : ℝ) ≤ Real.sin (4.95 * π / 180) := by
    refine hsin1.trans (Real.sin_le_sin_of_le_of_le_pi_div_two ?_ hθlt.le hθlo)
    linarith
  have hcb := Real.cos_bound (x := (0.08639378 : ℝ)) (by rw [abs_le]; constructor <;> norm_num)
  rw [abs_of_pos (by norm_num : (0 : ℝ) < 0.08639378), abs_le] at hcb
  have hcos1 : Real.cos 0.08639378 ≤ 0.996271 := by
    have h := hcb.2
    nlinarith
  have hcos : Real.cos (4.95 * π / 180) ≤ 0.996271 := by
    refine le_trans (Real.cos_le_cos_of_nonneg_of_le_pi (by norm_num) ?_ hθlo) hcos1
    linarith
  have hcpos : 0 < Real.cos (4.95 * π / 180) :=
    Real.cos_pos_of_mem_Ioo ⟨by linarith, hθlt⟩
  have htan : (0.0862834 : ℝ) / 0.996271 ≤ Real.tan (4.95 * π / 180) := by
    rw [Real.tan_eq_sin_div_cos]
    exact div_le_div₀ (by linarith) hsin hcpos hcos
  calc (0.086604 : ℝ) < 0.0862834 / 0.996271 := by norm_num
    _ ≤ Real.tan (4.95 * π / 180) := htan

lemma tan_phi0_lt_sinh_pi : Real.tan (85.05 * π / 180) < Real.sinh π := by
  have hid : 85.05 * π / 180 = π / 2 - 4.95 * π / 180 := by ring
  rw [hid, Real.tan_pi_div_two_sub]
  have ht := tan_theta_gt
  have h1 := inv_strictAnti₀ (by norm_num : (0 : ℝ) < 0.086604) ht
  calc (Real.tan (4.95 * π / 180))⁻¹ < (0.086604 : ℝ)⁻¹ := h1
    _ < 11.5483 := by norm_num
    _ < Real.sinh π := sinh_pi_gt

/-! ### The code's `ln(tan φ + 1/cos φ)` is `arsinh (tan φ)` and stays inside `(-π, π)` -/

lemma log_tan_add_sec_eq_arsinh {φ : ℝ} (h1 : -(π / 2) < φ) (h2 : φ < π / 2) :
    Real.log (Real.tan φ + 1 / Real.cos φ) = Real.arsinh (Real.tan φ) := by
  have hc : 0 < Real.cos φ := Real.cos_pos_of_mem_Ioo ⟨h1, h2⟩
  have hsq : Real.sqrt (1 + Real.tan φ ^ 2) = 1 / Real.cos φ := by
    have h : (1 : ℝ) + Real.tan φ ^ 2 = (1 / Real.cos φ) ^ 2 := by
      rw [Real.tan_eq_sin_div_cos]
      field_simp
    rw [h]
    exact Real.sqrt_sq (by positivity)
  simp only [Real.arsinh, hsq]

lemma arsinh_tan_lt_pi {φ : ℝ} (hl : -(π / 2) < φ) (hφ : φ < 85.05 * π / 180) :
    Real.arsinh (Real.tan φ) < π := by
  have hpi := Real.pi_pos
  have hphi0 : 85.05 * π / 180 < π / 2 := by linarith
  have htan : Real.tan φ < Real.tan (85.05 * π / 180) :=
    Real.tan_lt_tan_of_lt_of_lt_pi_div_two hl hphi0 hφ
  calc Real.arsinh (Real.tan φ) < Real.arsinh (Real.tan (85.05 * π / 180)) :=
      Real.arsinh_lt_arsinh.mpr htan
    _ < Real.arsinh (Real.sinh π) := Real.arsinh_lt_arsinh.mpr tan_phi0_lt_sinh_pi
    _ = π := Real.arsinh_sinh π

lemma neg_pi_lt_arsinh_tan {φ : ℝ} (hφ : -(85.05 * π / 180) < φ) (hu : φ < π / 2) :
    -π < Real.arsinh (Real.tan φ) := by
  have h := arsinh_tan_lt_pi (φ := -φ) (by linarith) (by linarith)
  rw [Real.tan_neg, Real.arsinh_neg] at h
  linarith

/-- For `-85.05 < lat < 85.05` degrees the y-projection argument of `geo_to_tile` is a
logarithm strictly between `-π` and `π`. -/
lemma log_bound {lat : ℝ} (h1 : -85.05 < lat) (h2 : lat < 85.05) :
    -π < Real.log (Real.tan (toRadians lat) + 1 / Real.cos (toRadians lat)) ∧
      Real.log (Real.tan (toRadians lat) + 1 / Real.cos (toRadians lat)) < π := by
  have hpi := Real.pi_pos
  have hφ1 : -(85.05 * π / 180) < toRadians lat := by
    rw [toRadians]
    nlinarith
  have hφ2 : toRadians lat < 85.05 * π / 180 := by
    rw [toRadians]
    nlinarith
  have hl : -(π / 2) < toRadians lat := by linarith
  have hu : toRadians lat < π / 2 := by linarith
  rw [log_tan_add_sec_eq_arsinh hl hu]
  exact ⟨neg_pi_lt_arsinh_tan hφ1 hu, arsinh_tan_lt_pi hl hφ2⟩

/-! ### Claims C3 and C7 amended -/

lemma n_wrap_eq {zoom : ℕ} (h : zoom ≤ 30) : wrap32 (2 ^ (zoom % 32)) = 2 ^ zoom := by
  have hz : zoom % 32 = zoom := Nat.mod_eq_of_lt (by omega)
  rw [hz, wrap32]
  have hb : (2 : ℤ) ^ zoom ≤ 2 ^ 30 := pow_le_pow_right₀ (by norm_num) h
  have h1 : (0 : ℤ) ≤ 2 ^ zoom + 2 ^ 31 := by positivity
  have h2 : (2 : ℤ) ^ zoom + 2 ^ 31 < 2 ^ 32 := by
    have h30 : (2 : ℤ) ^ 30 + 2 ^ 31 < 2 ^ 32 := by norm_num
    linarith
  rw [Int.emod_eq_of_lt h1 h2]
  ring

lemma pow_thirty_le : ((2 : ℝ) ^ (30 : ℕ)) ≤ 2 ^ 31 - 1 := by norm_num

/-- C3 amended: for longitudes in the half-open range `[-180, 180)` (not `[-180, 180]`),
latitudes strictly within `(-85.05, 85.05)` and zoom at most 30 (so that `1 << zoom` does not
overflow `i32`), the tile indices satisfy `0 ≤ x, y < 2^zoom`. -/
theorem C3_tile_range_amended (lon lat : ℝ) (zoom : ℕ)
    (hlon1 : -180 ≤ lon) (hlon2 : lon < 180)
    (hlat1 : -85.05 < lat) (hlat2 : lat < 85.05) (hzoom : zoom ≤ 30) :
    0 ≤ (geo_to_tile lon lat zoom).1 ∧ (geo_to_tile lon lat zoom).1 < 2 ^ zoom ∧
    0 ≤ (geo_to_tile lon lat zoom).2 ∧ (geo_to_tile lon lat zoom).2 < 2 ^ zoom := by
  have hpi := Real.pi_pos
  have hn := n_wrap_eq hzoom
  simp only [geo_to_tile, hn]
  have hcast : ((2 ^ zoom : ℤ) : ℝ) = (2 : ℝ) ^ zoom := by push_cast; ring
  rw [hcast]
  have hnR : (0 : ℝ) < 2 ^ zoom := by positivity
  have hnle : (2 : ℝ) ^ zoom ≤ 2 ^ 30 := pow_le_pow_right₀ (by norm_num) hzoom
  have hvx0 : (0 : ℝ) ≤ 2 ^ zoom * (lon + 180) / 360 :=
    div_nonneg (mul_nonneg hnR.le (by linarith)) (by norm_num)
  have hvx1 : (2 : ℝ) ^ zoom * (lon + 180) / 360 < 2 ^ zoom := by
    rw [div_lt_iff₀ (by norm_num : (0 : ℝ) < 360)]
    nlinarith
  have hvx2 : (2 : ℝ) ^ zoom * (lon + 180) / 360 < 2 ^ 31 - 1 := by
    linarith [pow_thirty_le]
  rw [i32cast_eq_floor hvx0 hvx2]
  obtain ⟨hA1, hA2⟩ := log_bound hlat1 hlat2
  set A := Real.log (Real.tan (toRadians lat) + 1 / Real.cos (toRadians lat)) with hA
  have hAd1 : A / π < 1 := (div_lt_one hpi).mpr hA2
  have hAd2 : (-1 : ℝ) < A / π := by
    rw [lt_div_iff₀ hpi]
    linarith
  have hvy0 : (0 : ℝ) ≤ 2 ^ zoom * (1 - A / π) / 2 := by
    have h1 : (0 : ℝ) < 1 - A / π := by linarith
    positivity
  have hvy1 : (2 : ℝ) ^ zoom * (1 - A / π) / 2 < 2 ^ zoom := by
    have h2 : 1 - A / π < 2 := by linarith
    rw [div_lt_iff₀ (by norm_num : (0 : ℝ) < 2)]
    nlinarith
  have hvy2 : (2 : ℝ) ^ zoom * (1 - A / π) / 2 < 2 ^ 31 - 1 := by
    linarith [pow_thirty_le]
  rw [i32cast_eq_floor hvy0 hvy2]
  refine ⟨Int.floor_nonneg.mpr hvx0, ?_, Int.floor_nonneg.mpr hvy0, ?_⟩
  · rw [Int.floor_lt]
    push_cast
    exact hvx1
  · rw [Int.floor_lt]
    push_cast
    exact hvy1

/-- Witness for the amended C3 at `(lon, lat, zoom) = (0, 0, 14)`. -/
theorem C3_tile_range_amended_witness :
    ((-180 : ℝ) ≤ 0 ∧ (0 : ℝ) < 180 ∧ (-85.05 : ℝ) < 0 ∧ (0 : ℝ) < 85.05 ∧ 14 ≤ 30) ∧
    (0 ≤ (geo_to_tile 0 0 14).1 ∧ (geo_to_tile 0 0 14).1 < 2 ^ 14 ∧
      0 ≤ (geo_to_tile 0 0 14).2 ∧ (geo_to_tile 0 0 14).2 < 2 ^ 14) :=
  ⟨⟨by norm_num, by norm_num, by norm_num, by norm_num, by norm_num⟩,
    C3_tile_range_amended 0 0 14 (by norm_num) (by norm_num) (by norm_num) (by norm_num)
      (by norm_num)⟩

/-- The two truncating casts in `geo_to_tile` are plain floors on the stated domain. -/
lemma geo_to_tile_eq_floor (lon lat : ℝ) (zoom : ℕ)
    (hlon1 : -180 ≤ lon) (hlon2 : lon ≤ 180)
    (hlat1 : -85.05 < lat) (hlat2 : lat < 85.05) (hzoom : zoom ≤ 30) :
    geo_to_tile lon lat zoom =
      (⌊(2 : ℝ) ^ zoom * (lon + 180) / 360⌋,
        ⌊(2 : ℝ) ^ zoom *
          (1 - Real.log (Real.tan (toRadians lat) + 1 / Real.cos (toRadians lat)) / π) /
            2⌋) := by
  have hpi := Real.pi_pos
  have hn := n_wrap_eq hzoom
  simp only [geo_to_tile, hn]
  have hcast : ((2 ^ zoom : ℤ) : ℝ) = (2 : ℝ) ^ zoom := by push_cast; ring
  rw [hcast]
  have hnR : (0 : ℝ) < 2 ^ zoom := by positivity
  have hnle : (2 : ℝ) ^ zoom ≤ 2 ^ 30 := pow_le_pow_right₀ (by norm_num) hzoom
  have hvx0 : (0 : ℝ) ≤ 2 ^ zoom * (lon + 180) / 360 :=
    div_nonneg (mul_nonneg hnR.le (by linarith)) (by norm_num)
  have hvx1 : (2 : ℝ) ^ zoom * (lon + 180) / 360 ≤ 2 ^ zoom := by
    rw [div_le_iff₀ (by norm_num : (0 : ℝ) < 360)]
    nlinarith
  have hvx2 : (2 : ℝ) ^ zoom * (lon + 180) / 360 < 2 ^ 31 - 1 := by
    linarith [pow_thirty_le]
  obtain ⟨hA1, hA2⟩ := log_bound hlat1 hlat2
  set A := Real.log (Real.tan (toRadians lat) + 1 / Real.cos (toRadians lat)) with hA
  have hAd1 : A / π < 1 := (div_lt_one hpi).mpr hA2
  have hAd2 : (-1 : ℝ) < A / π := by
    rw [lt_div_iff₀ hpi]
    linarith
  have hvy0 : (0 : ℝ) ≤ 2 ^ zoom * (1 - A / π) / 2 := by
    have h1 : (0 : ℝ) < 1 - A / π := by linarith
    positivity
  have hvy1 : (2 : ℝ) ^ zoom * (1 - A / π) / 2 < 2 ^ zoom := by
    have h2 : 1 - A / π < 2 := by linarith
    rw [div_lt_iff₀ (by norm_num : (0 : ℝ) < 2)]
    nlinarith
  have hvy2 : (2 : ℝ) ^ zoom * (1 - A / π) / 2 < 2 ^ 31 - 1 := by
    linarith [pow_thirty_le]
  rw [i32cast_eq_floor hvx0 hvx2, i32cast_eq_floor hvy0 hvy2]

/-- C7 amended: for zoom at most 30 (so that `1 << zoom` does not overflow `i32`),
`geo_to_tile` returns exactly the standard slippy-map floors
`x = ⌊2^zoom * (lon+180)/360⌋` and `y = ⌊2^zoom * (1 - arsinh(tan lat_rad)/π) / 2⌋`. -/
theorem C7_formula_amended (lon lat : ℝ) (zoom : ℕ)
    (hlon1 : -180 ≤ lon) (hlon2 : lon ≤ 180)
    (hlat1 : -85.05 < lat) (hlat2 : lat < 85.05) (hzoom : zoom ≤ 30) :
    geo_to_tile lon lat zoom =
      (⌊(2 : ℝ) ^ zoom * (lon + 180) / 360⌋,
        ⌊(2 : ℝ) ^ zoom * (1 - Real.arsinh (Real.tan (lat * π / 180)) / π) / 2⌋) := by
  have hpi := Real.pi_pos
  have hl : -(π / 2) < toRadians lat := by
    rw [toRadians]
    nlinarith
  have hu : toRadians lat < π / 2 := by
    rw [toRadians]
    nlinarith
  rw [geo_to_tile_eq_floor lon lat zoom hlon1 hlon2 hlat1 hlat2 hzoom,
    log_tan_add_sec_eq_arsinh hl hu, toRadians]

/-- Witness for the amended C7 at `(lon, lat, zoom) = (0, 0, 0)`. -/
theorem C7_formula_amended_witness :
    ((-180 : ℝ) ≤ 0 ∧ (0 : ℝ) ≤ 180 ∧ (-85.05 : ℝ) < 0 ∧ (0 : ℝ) < 85.05 ∧ 0 ≤ 30) ∧
    geo_to_tile 0 0 0 =
      (⌊(2 : ℝ) ^ (0 : ℕ) * (0 + 180) / 360⌋,
        ⌊(2 : ℝ) ^ (0 : ℕ) * (1 - Real.arsinh (Real.tan (0 * π / 180)) / π) / 2⌋) :=
  ⟨⟨by norm_num, by norm_num, by norm_num, by norm_num, by norm_num⟩,
    C7_formula_amended 0 0 0 (by norm_num) (by norm_num) (by norm_num) (by norm_num)
      (by norm_num)⟩

/-! ### Claim C4: tile round trip stays within one tile -/

lemma wrap32_small {zoom : ℕ} (h : zoom ≤ 30) : wrap32 (zoom : ℤ) = (zoom : ℤ) := by
  rw [wrap32]
  omega

lemma tile_n_eq {zoom : ℕ} (h : zoom ≤ 30) : (2 : ℝ) ^ (wrap32 (zoom : ℤ)) = (2 : ℝ) ^ zoom := by
  rw [wrap32_small h, zpow_natCast]

/-- The latitude returned by `tile_to_geo` decreases as the tile row index grows. -/
lemma tile_lat_anti (n t1 t2 : ℝ) (hn : 0 < n) (h : t1 ≤ t2) :
    toDegrees (Real.arctan (Real.sinh (π * (1 - 2 * t2 / n)))) ≤
      toDegrees (Real.arctan (Real.sinh (π * (1 - 2 * t1 / n)))) := by
  have hpi := Real.pi_pos
  have harg : π * (1 - 2 * t2 / n) ≤ π * (1 - 2 * t1 / n) := by
    have hd : 2 * t1 / n ≤ 2 * t2 / n := by gcongr
    nlinarith
  have ha := Real.arctan_strictMono.monotone (Real.sinh_le_sinh.mpr harg)
  rw [toDegrees, toDegrees]
  gcongr

/-- C4: for valid coordinates with latitude in (-85, 85) and zoom up to 20, applying
`tile_to_geo` to `geo_to_tile` lands within one tile's angular width in longitude
(`360/2^zoom`) and within one tile's angular height at that location in latitude (the height
of the tile row the coordinate falls into). -/
theorem C4_tile_roundtrip (lon lat : ℝ) (zoom : ℕ)
    (hlon1 : -180 ≤ lon) (hlon2 : lon ≤ 180) (hlat1 : -85 < lat) (hlat2 : lat < 85)
    (hzoom : zoom ≤ 20) :
    |(tile_to_geo (geo_to_tile lon lat zoom).1 (geo_to_tile lon lat zoom).2 zoom).1 - lon| ≤
      360 / 2 ^ zoom ∧
    |(tile_to_geo (geo_to_tile lon lat zoom).1 (geo_to_tile lon lat zoom).2 zoom).2 - lat| ≤
      (tile_to_geo (geo_to_tile lon lat zoom).1 (geo_to_tile lon lat zoom).2 zoom).2 -
        (tile_to_geo (geo_to_tile lon lat zoom).1 ((geo_to_tile lon lat zoom).2 + 1) zoom).2 := by
  have hpi := Real.pi_pos
  have hπ : (π : ℝ) ≠ 0 := Real.pi_ne_zero
  have hzoom30 : zoom ≤ 30 := by omega
  have hl : -(π / 2) < toRadians lat := by
    rw [toRadians]
    nlinarith
  have hu : toRadians lat < π / 2 := by
    rw [toRadians]
    nlinarith
  rw [geo_to_tile_eq_floor lon lat zoom hlon1 hlon2 (by linarith) (by linarith) hzoom30]
  simp only [tile_to_geo, tile_n_eq hzoom30]
  have hnR : (0 : ℝ) < 2 ^ zoom := by positivity
  have hn0 : ((2 : ℝ) ^ zoom) ≠ 0 := ne_of_gt hnR
  obtain ⟨hA1, hA2⟩ := log_bound (by linarith : (-85.05 : ℝ) < lat) (by linarith)
  set A := Real.log (Real.tan (toRadians lat) + 1 / Real.cos (toRadians lat)) with hA
  set vx : ℝ := (2 : ℝ) ^ zoom * (lon + 180) / 360 with hvx
  set vy : ℝ := (2 : ℝ) ^ zoom * (1 - A / π) / 2 with hvy
  constructor
  · have h1 : ((⌊vx⌋ : ℝ)) ≤ vx := Int.floor_le _
    have h2 : vx - 1 < (⌊vx⌋ : ℝ) := Int.sub_one_lt_floor _
    have hkey : (⌊vx⌋ : ℝ) / 2 ^ zoom * 360 - 180 - lon = ((⌊vx⌋ : ℝ) - vx) * (360 / 2 ^ zoom) := by
      rw [hvx]
      field_simp
      ring
    rw [hkey, abs_mul, abs_of_nonneg (by positivity : (0 : ℝ) ≤ 360 / 2 ^ zoom)]
    have habs1 : |(⌊vx⌋ : ℝ) - vx| ≤ 1 := abs_le.mpr ⟨by linarith, by linarith⟩
    have hmul := mul_le_mul_of_nonneg_right habs1
      (by positivity : (0 : ℝ) ≤ 360 / 2 ^ zoom)
    linarith
  · have hfy1 : ((⌊vy⌋ : ℝ)) ≤ vy := Int.floor_le _
    have hfy2 : vy - 1 < (⌊vy⌋ : ℝ) := Int.sub_one_lt_floor _
    have hinner : π * (1 - 2 * vy / (2 : ℝ) ^ zoom) = A := by
      rw [hvy]
      field_simp
      ring
    have hsinhA : Real.sinh A = Real.tan (toRadians lat) := by
      rw [hA, log_tan_add_sec_eq_arsinh hl hu, Real.sinh_arsinh]
    have hlatout :
        toDegrees (Real.arctan (Real.sinh (π * (1 - 2 * vy / (2 : ℝ) ^ zoom)))) = lat := by
      rw [hinner, hsinhA, Real.arctan_tan hl hu, toDegrees, toRadians]
      field_simp
    have hmono1 := tile_lat_anti ((2 : ℝ) ^ zoom) ((⌊vy⌋ : ℝ)) vy hnR hfy1
    have hmono2 := tile_lat_anti ((2 : ℝ) ^ zoom) vy ((⌊vy⌋ : ℝ) + 1) hnR (by linarith)
    rw [hlatout] at hmono1 hmono2
    push_cast
    rw [abs_of_nonneg (by linarith)]
    linarith

/-- Witness for C4 at `(lon, lat, zoom) = (0, 0, 0)`. -/
theorem C4_tile_roundtrip_witness :
    ((-180 : ℝ) ≤ 0 ∧ (0 : ℝ) ≤ 180 ∧ (-85 : ℝ) < 0 ∧ (0 : ℝ) < 85 ∧ 0 ≤ 20) ∧
    (|(tile_to_geo (geo_to_tile 0 0 0).1 (geo_to_tile 0 0 0).2 0).1 - 0| ≤ 360 / 2 ^ 0 ∧
      |(tile_to_geo (geo_to_tile 0 0 0).1 (geo_to_tile 0 0 0).2 0).2 - 0| ≤
        (tile_to_geo (geo_to_tile 0 0 0).1 (geo_to_tile 0 0 0).2 0).2 -
          (tile_to_geo (geo_to_tile 0 0 0).1 ((geo_to_tile 0 0 0).2 + 1) 0).2) :=
  ⟨⟨by norm_num, by norm_num, by norm_num, by norm_num, by norm_num⟩,
    C4_tile_roundtrip 0 0 0 (by norm_num) (by norm_num) (by norm_num) (by norm_num)
      (by norm_num)⟩

end OfmViewer
